import Mathlib

/-!
A shallow embedding of the yieldy-for repository (src/index.js) together with
proofs about its yield-scheduling loop.

Modelling choices:
* Times are rationals; the only arithmetic the code performs on them is the
  batch-duration division 1000 / fps, subtraction and comparison.
* The host environment (performance.now, document.hidden, availability of
  scheduler.yield) is an oracle; each call of performance.now and each read of
  document.hidden consumes the next value of the corresponding stream, so a
  run is deterministic once the oracle is fixed.
* The per-item callback is a function into Except: Except.error models a
  thrown value, which the async function propagates as its rejection.
* The observable behaviour of a call is the list of primitive invocations in
  order (the event trace: setTimeout with its delay, requestAnimationFrame,
  scheduler.yield, and the callback calls) paired with the final state and the
  promise outcome.
-/

set_option autoImplicit false

namespace YieldyFor

variable {α ε β : Type}

/-- Model of the JavaScript values that can reach the two argument checks at
the top of yieldyForLoop: null, undefined, booleans, numbers, strings,
functions (tagged by an id), arrays, and plain objects whose Symbol.iterator
property is a function producing the given elements (some xs) or is not a
function (none).  Property access on null or undefined never happens in the
code because the null check short-circuits first. -/
inductive JSValue : Type where
  | nullV : JSValue
  | undefinedV : JSValue
  | boolV : Bool → JSValue
  | numV : Int → JSValue
  | strV : String → JSValue
  | funcV : Nat → JSValue
  | arrV : List JSValue → JSValue
  | objV : Option (List JSValue) → JSValue

/-- The JavaScript typeof operator restricted to the modelled values. -/
def typeof : JSValue → String
  | JSValue.nullV => "object"
  | JSValue.undefinedV => "undefined"
  | JSValue.boolV _ => "boolean"
  | JSValue.numV _ => "number"
  | JSValue.strV _ => "string"
  | JSValue.funcV _ => "function"
  | JSValue.arrV _ => "object"
  | JSValue.objV _ => "object"

/-- Result of reading the Symbol.iterator property of a value: strings and
arrays have the built-in iterator functions of their prototypes, a plain
object has one exactly when it was built with some elements, every other
modelled value yields undefined. -/
def symbolIteratorProp : JSValue → JSValue
  | JSValue.strV _ => JSValue.funcV 0
  | JSValue.arrV _ => JSValue.funcV 1
  | JSValue.objV (some _) => JSValue.funcV 2
  | _ => JSValue.undefinedV

/-- Loose equality with null (obj != null), true exactly on null and
undefined. -/
def isNullish : JSValue → Bool
  | JSValue.nullV => true
  | JSValue.undefinedV => true
  | _ => false

/-- Source, src/index.js lines 1-3:
obj != null and typeof obj[Symbol.iterator] === 'function'. -/
def isIterable (obj : JSValue) : Bool :=
  !(isNullish obj) && (typeof (symbolIteratorProp obj) == "function")

/-- The check typeof processFn === 'function' (the source tests its negation
on line 24). -/
def isCallable (v : JSValue) : Bool :=
  typeof v == "function"

/-- The sequence of elements produced by iterating a value that passed the
isIterable check: arrays yield their elements, strings yield their characters
as one-character strings (JS string iteration is by code point, matching
Lean's Char), an object with an iterator yields its elements. -/
def jsElements : JSValue → List JSValue
  | JSValue.arrV xs => xs
  | JSValue.strV s => s.data.map (fun c => JSValue.strV (String.singleton c))
  | JSValue.objV (some xs) => xs
  | _ => []

/-- Caller-supplied configuration, the destructured options parameter of
yieldyForLoop with defaults fps = 30 and hiddenThreshold = 500. -/
structure Config : Type where
  fps : ℚ
  hiddenThreshold : ℚ

/-- The default options object of the source. -/
def defaultConfig : Config := ⟨30, 500⟩

/-- The injected host environment: the stream of values returned by successive
performance.now() calls, the stream of values returned by successive reads of
document.hidden, and whether scheduler.yield is available (the source probes
typeof scheduler and typeof scheduler.yield at each suspension; availability
is modelled as fixed for the run). -/
structure Host : Type where
  now : Nat → ℚ
  hidden : Nat → Bool
  hasSchedulerYield : Bool

/-- Observable primitive invocations of one run, in order. -/
inductive Event (α : Type) : Type where
  | processCall : α → Event α
  | setTimeoutCall : Nat → Event α
  | rafCall : Event α
  | schedulerYieldCall : Event α
  deriving DecidableEq

/-- Mutable state of one invocation: the timeOfLastYield variable plus the
cursors of the two host read streams. -/
structure LoopState : Type where
  timeOfLastYield : ℚ
  nowCalls : Nat
  hiddenReads : Nat
  deriving DecidableEq

/-- Source line 27: BATCH_DURATION = 1000 / fps. -/
def BATCH_DURATION (cfg : Config) : ℚ := 1000 / cfg.fps

/-- Source lines 30-39, the inner function shouldYield: read now, pick the
threshold from the current document.hidden reading, and if now minus
timeOfLastYield strictly exceeds it, set timeOfLastYield to now and report
true, otherwise leave it unchanged and report false. -/
def shouldYield (cfg : Config) (host : Host) (s : LoopState) : Bool × LoopState :=
  let now := host.now s.nowCalls
  let threshold := if host.hidden s.hiddenReads then cfg.hiddenThreshold else BATCH_DURATION cfg
  if now - s.timeOfLastYield > threshold then
    (true, { timeOfLastYield := now, nowCalls := s.nowCalls + 1, hiddenReads := s.hiddenReads + 1 })
  else
    (false, { timeOfLastYield := s.timeOfLastYield, nowCalls := s.nowCalls + 1,
              hiddenReads := s.hiddenReads + 1 })

/-- Source lines 42-62, the body of the if (shouldYield()) block: re-read
document.hidden; when hidden, await setTimeout(resolve, 1) and refresh
timeOfLastYield from a new performance.now() reading; when visible, register
setTimeout(resolve, 100) and requestAnimationFrame and await their race,
refresh timeOfLastYield, then await scheduler.yield() once when available. -/
def performYield (host : Host) (s : LoopState) : List (Event α) × LoopState :=
  if host.hidden s.hiddenReads then
    ([Event.setTimeoutCall 1],
     { timeOfLastYield := host.now s.nowCalls, nowCalls := s.nowCalls + 1,
       hiddenReads := s.hiddenReads + 1 })
  else
    ([Event.setTimeoutCall 100, Event.rafCall] ++
       (if host.hasSchedulerYield then [Event.schedulerYieldCall] else []),
     { timeOfLastYield := host.now s.nowCalls, nowCalls := s.nowCalls + 1,
       hiddenReads := s.hiddenReads + 1 })

/-- One pass of the decision made before each item: the if (shouldYield())
statement of the loop body, returning the primitive invocations it performed
and the state afterwards. -/
def loopStep (cfg : Config) (host : Host) (s : LoopState) : List (Event α) × LoopState :=
  let d := shouldYield cfg host s
  if d.1 then performYield host d.2 else ([], d.2)

/-- Source lines 41-67, the for (const item of items) loop: before each item
run the yield decision, then call processFn(item); a thrown error aborts the
loop and becomes the rejection of the async function. -/
def runLoop (cfg : Config) (host : Host) (f : α → Except ε Unit) :
    List α → LoopState → List (Event α) × LoopState × Option ε
  | [], s => ([], s, none)
  | item :: rest, s =>
    let step : List (Event α) × LoopState := loopStep cfg host s
    match f item with
    | Except.error e => (step.1 ++ [Event.processCall item], step.2, some e)
    | Except.ok _ =>
      let r := runLoop cfg host f rest step.2
      (step.1 ++ Event.processCall item :: r.1, r.2.1, r.2.2)

/-- Source line 28: let timeOfLastYield = performance.now(), consuming the
first clock reading before the loop starts. -/
def initState (host : Host) : LoopState :=
  { timeOfLastYield := host.now 0, nowCalls := 1, hiddenReads := 0 }

/-- The whole body of yieldyForLoop after the argument checks, applied to the
already-extracted element sequence: trace of primitive invocations, final
state, and the rejection if processFn threw. -/
def yieldyForLoopRun (cfg : Config) (host : Host) (f : α → Except ε Unit)
    (items : List α) : List (Event α) × LoopState × Option ε :=
  runLoop cfg host f items (initState host)

/-- Outcome of the promise returned by yieldyForLoop: fulfilled, rejected with
one of the two argument-check TypeErrors, or rejected with the value thrown by
processFn. -/
inductive JSOutcome (ε : Type) : Type where
  | resolved : JSOutcome ε
  | typeError : String → JSOutcome ε
  | rejected : ε → JSOutcome ε

/-- Source lines 16-67, the exported async function: validate the arguments
(lines 20-25) and then run the loop.  The behaviour of the processFn function
value when called is supplied separately as fB, since the embedding keeps
function values opaque. -/
def yieldyForLoop {ε : Type} (cfg : Config) (host : Host) (items processFn : JSValue)
    (fB : JSValue → Except ε Unit) : List (Event JSValue) × JSOutcome ε :=
  if !(isIterable items) then
    ([], JSOutcome.typeError "items must be iterable")
  else if !(isCallable processFn) then
    ([], JSOutcome.typeError "processFn must be a function")
  else
    let r := yieldyForLoopRun cfg host fB (jsElements items)
    (r.1,
     match r.2.2 with
     | none => JSOutcome.resolved
     | some e => JSOutcome.rejected e)

/-- Arguments of the processFn invocations recorded in a trace, in order. -/
def processedItems : List (Event α) → List α
  | [] => []
  | Event.processCall a :: rest => a :: processedItems rest
  | _ :: rest => processedItems rest

/-- Recognises the minimal-delay deferred-execution step of the hidden branch,
setTimeout(resolve, 1). -/
def isDeferredCall : Event α → Bool
  | Event.setTimeoutCall 1 => true
  | _ => false

/-- Derived characterisation (used only in proofs): the callback invocations a
run performs depend on the items and the callback alone. -/
def callsOf (f : α → Except ε Unit) : List α → List α
  | [] => []
  | a :: rest =>
    match f a with
    | Except.error _ => [a]
    | Except.ok _ => a :: callsOf f rest

/-- Derived characterisation (used only in proofs): the rejection a run
produces depends on the items and the callback alone. -/
def resultOf (f : α → Except ε Unit) : List α → Option ε
  | [] => none
  | a :: rest =>
    match f a with
    | Except.error e => some e
    | Except.ok _ => resultOf f rest

/-- Concrete host whose clock is frozen at 0 and which is always visible, with
no scheduler.yield. -/
def hostW : Host := ⟨fun _ => 0, fun _ => false, false⟩

/-- Concrete host whose clock ticks 0, 1, 2, ... and which is always
visible. -/
def hostTick : Host := ⟨fun k => (k : ℚ), fun _ => false, false⟩

/-- Concrete host whose clock ticks 0, 1, 2, ... and which is always
hidden. -/
def hostHiddenTick : Host := ⟨fun k => (k : ℚ), fun _ => true, false⟩

/-- Concrete host whose clock is frozen at 0 and which is always hidden. -/
def hostHiddenFrozen : Host := ⟨fun _ => 0, fun _ => true, false⟩

/-- Configuration with the default frame rate and a hidden threshold of 0. -/
def cfgHidden0 : Config := ⟨30, 0⟩

/-- Configuration with fps = 1 (batch duration 1000) and the default hidden
threshold of 500. -/
def cfgFps1 : Config := ⟨1, 500⟩

/-- Host whose first document.hidden read is true and whose later ones are
false, with the clock jumping from 0 to 700; visibility changes between the
decision read and the protocol read. -/
def hostFlip : Host :=
  ⟨fun k => if k = 0 then 0 else 700, fun k => k == 0, false⟩

/-- Callback on naturals that always succeeds. -/
def fOkNat : Nat → Except Unit Unit := fun _ => Except.ok ()

/-- Callback on JS values that always succeeds. -/
def fOkJS : JSValue → Except Unit Unit := fun _ => Except.ok ()

/-- Callback that throws the string "Test error" on the element 2, mirroring
the error-handling test of the repository. -/
def fErr2 : Nat → Except String Unit :=
  fun n => if n = 2 then Except.error "Test error" else Except.ok ()

/-! Basic lemmas about the trace observers and the single-step functions. -/

theorem processedItems_append (l1 l2 : List (Event α)) :
    processedItems (l1 ++ l2) = processedItems l1 ++ processedItems l2 := by
  induction l1 with
  | nil => rfl
  | cons e rest ih => cases e <;> simp [processedItems, ih]

theorem processedItems_performYield (host : Host) (s : LoopState) :
    processedItems ((performYield host s : List (Event α) × LoopState).1) = [] := by
  unfold performYield
  by_cases h : host.hidden s.hiddenReads <;>
    by_cases h2 : host.hasSchedulerYield <;>
      simp [h, h2, processedItems]

theorem processedItems_loopStep (cfg : Config) (host : Host) (s : LoopState) :
    processedItems ((loopStep cfg host s : List (Event α) × LoopState).1) = [] := by
  unfold loopStep
  by_cases h : (shouldYield cfg host s).1 <;>
    simp [h, processedItems_performYield, processedItems]

theorem shouldYield_eq (cfg : Config) (host : Host) (s : LoopState) :
    shouldYield cfg host s =
      if host.now s.nowCalls - s.timeOfLastYield >
          (if host.hidden s.hiddenReads then cfg.hiddenThreshold else BATCH_DURATION cfg) then
        (true, ⟨host.now s.nowCalls, s.nowCalls + 1, s.hiddenReads + 1⟩)
      else
        (false, ⟨s.timeOfLastYield, s.nowCalls + 1, s.hiddenReads + 1⟩) := rfl

theorem performYield_snd (host : Host) (s : LoopState) :
    (performYield host s : List (Event α) × LoopState).2 =
      ⟨host.now s.nowCalls, s.nowCalls + 1, s.hiddenReads + 1⟩ := by
  unfold performYield
  by_cases h : host.hidden s.hiddenReads <;> simp [h]

theorem loopStep_eq (cfg : Config) (host : Host) (s : LoopState) :
    (loopStep cfg host s : List (Event α) × LoopState) =
      if host.now s.nowCalls - s.timeOfLastYield >
          (if host.hidden s.hiddenReads then cfg.hiddenThreshold else BATCH_DURATION cfg) then
        performYield host ⟨host.now s.nowCalls, s.nowCalls + 1, s.hiddenReads + 1⟩
      else
        ([], ⟨s.timeOfLastYield, s.nowCalls + 1, s.hiddenReads + 1⟩) := by
  unfold loopStep
  rw [shouldYield_eq]
  by_cases h : host.now s.nowCalls - s.timeOfLastYield >
      (if host.hidden s.hiddenReads then cfg.hiddenThreshold else BATCH_DURATION cfg) <;>
    simp [h]

/-- The processed items and the rejection of a run are fully determined by the
items and the callback, whatever the host behaves like. -/
theorem runLoop_characterization (cfg : Config) (host : Host) (f : α → Except ε Unit) :
    ∀ (items : List α) (s : LoopState),
      processedItems (runLoop cfg host f items s).1 = callsOf f items ∧
      (runLoop cfg host f items s).2.2 = resultOf f items := by
  intro items
  induction items with
  | nil => intro s; exact ⟨rfl, rfl⟩
  | cons a rest ih =>
    intro s
    cases hf : f a with
    | error e =>
      simp [runLoop, hf, callsOf, resultOf, processedItems_append, processedItems_loopStep,
        processedItems]
    | ok u =>
      cases u
      have h := ih ((loopStep cfg host s : List (Event α) × LoopState).2)
      simp [runLoop, hf, callsOf, resultOf, processedItems_append, processedItems_loopStep,
        processedItems, h.1, h.2]

theorem callsOf_of_ok (f : α → Except ε Unit) (hok : ∀ a, f a = Except.ok ()) :
    ∀ items : List α, callsOf f items = items := by
  intro items
  induction items with
  | nil => rfl
  | cons a rest ih => simp [callsOf, hok a, ih]

theorem resultOf_of_ok (f : α → Except ε Unit) (hok : ∀ a, f a = Except.ok ()) :
    ∀ items : List α, resultOf f items = none := by
  intro items
  induction items with
  | nil => rfl
  | cons a rest ih => simp [resultOf, hok a, ih]

theorem callsOf_resultOf_error (f : α → Except ε Unit) (a : α) (e : ε)
    (ha : f a = Except.error e) :
    ∀ pre : List α, (∀ x ∈ pre, f x = Except.ok ()) → ∀ post : List α,
      callsOf f (pre ++ a :: post) = pre ++ [a] ∧
      resultOf f (pre ++ a :: post) = some e := by
  intro pre
  induction pre with
  | nil => intro _ post; simp [callsOf, resultOf, ha]
  | cons x xs ih =>
    intro hpre post
    have hx : f x = Except.ok () := hpre x (by simp)
    have h := ih (fun y hy => hpre y (by simp [hy])) post
    simp [callsOf, resultOf, hx, h.1, h.2]

/-- When scheduler.yield is unavailable the run never emits its event. -/
theorem schedulerYieldCall_not_mem (cfg : Config) (host : Host) (f : α → Except ε Unit)
    (hns : host.hasSchedulerYield = false) :
    ∀ (items : List α) (s : LoopState),
      Event.schedulerYieldCall ∉ (runLoop cfg host f items s).1 := by
  intro items
  induction items with
  | nil => intro s; simp [runLoop]
  | cons a rest ih =>
    intro s
    have hstep : Event.schedulerYieldCall ∉ (loopStep cfg host s : List (Event α) × LoopState).1 := by
      unfold loopStep performYield
      by_cases h1 : (shouldYield cfg host s).1 <;>
        by_cases h2 : host.hidden (shouldYield cfg host s).2.hiddenReads <;>
          simp [h1, h2, hns]
    cases hf : f a with
    | error e => simp [runLoop, hf, hstep]
    | ok u =>
      cases u
      simp [runLoop, hf, hstep, ih ((loopStep cfg host s : List (Event α) × LoopState).2)]

/-- One decision point never decreases timeOfLastYield under a monotone clock,
and re-establishes that the stored value is at most the next clock reading. -/
theorem loopStep_tly_mono (cfg : Config) (host : Host)
    (hmono : ∀ i j : Nat, i ≤ j → host.now i ≤ host.now j) (s : LoopState)
    (h : s.timeOfLastYield ≤ host.now s.nowCalls) :
    s.timeOfLastYield ≤ (loopStep cfg host s : List (Event α) × LoopState).2.timeOfLastYield ∧
    (loopStep cfg host s : List (Event α) × LoopState).2.timeOfLastYield ≤
      host.now (loopStep cfg host s : List (Event α) × LoopState).2.nowCalls := by
  rw [loopStep_eq]
  by_cases htrip : host.now s.nowCalls - s.timeOfLastYield >
      (if host.hidden s.hiddenReads then cfg.hiddenThreshold else BATCH_DURATION cfg)
  · rw [if_pos htrip, performYield_snd]
    exact ⟨h.trans (hmono _ _ (Nat.le_succ _)), hmono _ _ (Nat.le_succ _)⟩
  · rw [if_neg htrip]
    exact ⟨le_refl _, h.trans (hmono _ _ (Nat.le_succ _))⟩

theorem runLoop_tly_mono (cfg : Config) (host : Host) (f : α → Except ε Unit)
    (hmono : ∀ i j : Nat, i ≤ j → host.now i ≤ host.now j) :
    ∀ (items : List α) (s : LoopState), s.timeOfLastYield ≤ host.now s.nowCalls →
      s.timeOfLastYield ≤ (runLoop cfg host f items s).2.1.timeOfLastYield ∧
      (runLoop cfg host f items s).2.1.timeOfLastYield ≤
        host.now (runLoop cfg host f items s).2.1.nowCalls := by
  intro items
  induction items with
  | nil => intro s h; exact ⟨le_refl _, h⟩
  | cons a rest ih =>
    intro s h
    have hstep := loopStep_tly_mono (α := α) cfg host hmono s h
    cases hf : f a with
    | error e =>
      constructor
      · simpa [runLoop, hf] using hstep.1
      · simpa [runLoop, hf] using hstep.2
    | ok u =>
      cases u
      have hr := ih ((loopStep cfg host s : List (Event α) × LoopState).2) hstep.2
      constructor
      · simpa [runLoop, hf] using hstep.1.trans hr.1
      · simpa [runLoop, hf] using hr.2

/-- Under a strictly increasing clock, a permanently hidden host and a hidden
threshold of zero, every element is preceded by exactly one minimal-delay
deferred-execution step.  The invariant carried through the loop is that the
stored timeOfLastYield is some earlier clock reading. -/
theorem runLoop_hidden_every (cfg : Config) (host : Host) (f : α → Except ε Unit)
    (hstrict : ∀ i j : Nat, i < j → host.now i < host.now j)
    (hhid : ∀ k, host.hidden k = true)
    (hthr : cfg.hiddenThreshold = 0)
    (hok : ∀ a, f a = Except.ok ()) :
    ∀ (items : List α) (s : LoopState) (j : Nat),
      j < s.nowCalls → s.timeOfLastYield = host.now j →
      (runLoop cfg host f items s).1.countP isDeferredCall = items.length ∧
      processedItems (runLoop cfg host f items s).1 = items := by
  intro items
  induction items with
  | nil => intro s j hj htly; simp [runLoop, processedItems]
  | cons a rest ih =>
    intro s j hj htly
    have htrip : host.now s.nowCalls - s.timeOfLastYield >
        (if host.hidden s.hiddenReads then cfg.hiddenThreshold else BATCH_DURATION cfg) := by
      rw [hhid s.hiddenReads, if_pos rfl, hthr, htly]
      exact sub_pos.mpr (hstrict j s.nowCalls hj)
    have hstep : (loopStep cfg host s : List (Event α) × LoopState) =
        ([Event.setTimeoutCall 1],
         ⟨host.now (s.nowCalls + 1), s.nowCalls + 1 + 1, s.hiddenReads + 1 + 1⟩) := by
      rw [loopStep_eq, if_pos htrip]
      unfold performYield
      rw [hhid (s.hiddenReads + 1)]
      simp
    have hr := ih (⟨host.now (s.nowCalls + 1), s.nowCalls + 1 + 1, s.hiddenReads + 1 + 1⟩ :
        LoopState) (s.nowCalls + 1) (Nat.lt_succ_self _) rfl
    constructor
    · simp [runLoop, hok a, hstep, List.countP_cons, isDeferredCall, hr.1]
    · simp [runLoop, hok a, hstep, processedItems, hr.2]

/-- Under a frozen clock and a permanently visible host with a nonnegative
batch duration, the decision never trips, so the trace holds nothing but the
callback invocations. -/
theorem runLoop_frozen_visible (cfg : Config) (host : Host) (f : α → Except ε Unit)
    (hfroz : ∀ k, host.now k = host.now 0)
    (hvis : ∀ k, host.hidden k = false)
    (hb : 0 ≤ BATCH_DURATION cfg) :
    ∀ (items : List α) (s : LoopState), s.timeOfLastYield = host.now 0 →
      ∀ e ∈ (runLoop cfg host f items s).1, ∃ b, e = Event.processCall b := by
  intro items
  induction items with
  | nil => intro s htly e he; simp [runLoop] at he
  | cons a rest ih =>
    intro s htly
    have hnotrip : ¬ host.now s.nowCalls - s.timeOfLastYield >
        (if host.hidden s.hiddenReads then cfg.hiddenThreshold else BATCH_DURATION cfg) := by
      rw [hvis s.hiddenReads, if_neg (by simp), htly, hfroz s.nowCalls, sub_self]
      exact not_lt.mpr hb
    have hstep : (loopStep cfg host s : List (Event α) × LoopState) =
        ([], ⟨s.timeOfLastYield, s.nowCalls + 1, s.hiddenReads + 1⟩) := by
      rw [loopStep_eq, if_neg hnotrip]
    cases hf : f a with
    | error e =>
      intro ev hev
      simp [runLoop, hf, hstep] at hev
      exact ⟨a, hev⟩
    | ok u =>
      cases u
      intro ev hev
      simp [runLoop, hf, hstep] at hev
      cases hev with
      | inl h => exact ⟨a, h⟩
      | inr h =>
        exact ih (⟨s.timeOfLastYield, s.nowCalls + 1, s.hiddenReads + 1⟩ : LoopState) htly ev h

/-! Claim theorems. -/

/-- C1: for every finite sequence S of length n and every callback f that
never throws, the run resolves and invokes f exactly n times, with arguments
equal to S's elements in S's iteration order, no element skipped or
duplicated; in particular run of the empty sequence resolves without ever
invoking f. -/
theorem run_resolves_and_processes_all (cfg : Config) (host : Host)
    (f : α → Except ε Unit) (items : List α) (hok : ∀ a, f a = Except.ok ()) :
    (yieldyForLoopRun cfg host f items).2.2 = none ∧
    processedItems (yieldyForLoopRun cfg host f items).1 = items := by
  have h := runLoop_characterization cfg host f items (initState host)
  exact ⟨h.2.trans (resultOf_of_ok f hok items), h.1.trans (callsOf_of_ok f hok items)⟩

theorem run_resolves_and_processes_all_witness :
    (yieldyForLoopRun defaultConfig hostW fOkNat [1, 2, 3]).2.2 = none ∧
    processedItems (yieldyForLoopRun defaultConfig hostW fOkNat [1, 2, 3]).1 = [1, 2, 3] :=
  run_resolves_and_processes_all defaultConfig hostW fOkNat [1, 2, 3] (fun _ => rfl)

/-- C2: if the callback succeeds on every element of pre and throws e on a,
then the run on pre ++ a :: post rejects with exactly e, the callback has
been invoked exactly once per element reached including the failing one, and
no element after the failing one is ever passed to it. -/
theorem run_propagates_callback_error (cfg : Config) (host : Host)
    (f : α → Except ε Unit) (pre : List α) (a : α) (post : List α) (e : ε)
    (hpre : ∀ x ∈ pre, f x = Except.ok ()) (ha : f a = Except.error e) :
    (yieldyForLoopRun cfg host f (pre ++ a :: post)).2.2 = some e ∧
    processedItems (yieldyForLoopRun cfg host f (pre ++ a :: post)).1 = pre ++ [a] := by
  have h := runLoop_characterization cfg host f (pre ++ a :: post) (initState host)
  have hc := callsOf_resultOf_error f a e ha pre hpre post
  exact ⟨h.2.trans hc.2, h.1.trans hc.1⟩

theorem run_propagates_callback_error_witness :
    (yieldyForLoopRun defaultConfig hostW fErr2 ([1] ++ 2 :: [])).2.2 = some "Test error" ∧
    processedItems (yieldyForLoopRun defaultConfig hostW fErr2 ([1] ++ 2 :: [])).1 =
      [1] ++ [2] :=
  run_propagates_callback_error defaultConfig hostW fErr2 [1] 2 [] "Test error"
    (by intro x hx; rw [List.mem_singleton] at hx; subst hx; rfl) rfl

/-- C3: whenever items fails the iterability check or processFn fails the
callability check, the call rejects with one of the two argument TypeErrors
(the spec's InvalidArgument) and its trace is empty: the callback is never
invoked, items is never iterated, and no suspension primitive or clock read is
ever performed. -/
theorem run_rejects_invalid_arguments {ε : Type} (cfg : Config) (host : Host)
    (items processFn : JSValue) (fB : JSValue → Except ε Unit)
    (h : isIterable items = false ∨ isCallable processFn = false) :
    (yieldyForLoop cfg host items processFn fB).1 = [] ∧
    ((yieldyForLoop cfg host items processFn fB).2 =
        JSOutcome.typeError "items must be iterable" ∨
      (yieldyForLoop cfg host items processFn fB).2 =
        JSOutcome.typeError "processFn must be a function") := by
  cases h with
  | inl h => simp [yieldyForLoop, h]
  | inr h =>
    by_cases hi : isIterable items = true
    · simp [yieldyForLoop, hi, h]
    · have hi' : isIterable items = false := by simpa using hi
      simp [yieldyForLoop, hi']

theorem run_rejects_invalid_arguments_witness :
    (yieldyForLoop defaultConfig hostW (JSValue.numV 42) (JSValue.funcV 0) fOkJS).1 = [] ∧
    ((yieldyForLoop defaultConfig hostW (JSValue.numV 42) (JSValue.funcV 0) fOkJS).2 =
        JSOutcome.typeError "items must be iterable" ∨
      (yieldyForLoop defaultConfig hostW (JSValue.numV 42) (JSValue.funcV 0) fOkJS).2 =
        JSOutcome.typeError "processFn must be a function") :=
  run_rejects_invalid_arguments defaultConfig hostW (JSValue.numV 42) (JSValue.funcV 0) fOkJS
    (Or.inl rfl)

/-- C4: before every element, the decision uses the threshold
hiddenSuspensionThreshold when the current visibility reading reports hidden
and 1000 / fps otherwise, and the suspension protocol runs if and only if the
fresh clock reading minus timeOfLastYield strictly exceeds that threshold:
the first event emitted for the element is the protocol's setTimeout call
exactly when the decision trips (with delay 1 or 100 according to the second,
independent visibility reading), and is the callback invocation itself, with
no host primitive before it, otherwise. -/
theorem yield_decision_iff_threshold (cfg : Config) (host : Host) (f : α → Except ε Unit)
    (item : α) (rest : List α) (s : LoopState) :
    (runLoop cfg host f (item :: rest) s).1.head? =
      some (if host.now s.nowCalls - s.timeOfLastYield >
              (if host.hidden s.hiddenReads then cfg.hiddenThreshold else 1000 / cfg.fps) then
              Event.setTimeoutCall (if host.hidden (s.hiddenReads + 1) then 1 else 100)
            else Event.processCall item) := by
  have hb : (1000 : ℚ) / cfg.fps = BATCH_DURATION cfg := rfl
  rw [hb]
  by_cases htrip : host.now s.nowCalls - s.timeOfLastYield >
      (if host.hidden s.hiddenReads then cfg.hiddenThreshold else BATCH_DURATION cfg)
  · rw [if_pos htrip]
    have hstep : (loopStep cfg host s : List (Event α) × LoopState) =
        performYield host ⟨host.now s.nowCalls, s.nowCalls + 1, s.hiddenReads + 1⟩ := by
      rw [loopStep_eq, if_pos htrip]
    cases hf : f item <;>
      by_cases hh : host.hidden (s.hiddenReads + 1) <;>
        simp [runLoop, hf, hstep, performYield, hh]
  · rw [if_neg htrip]
    have hstep : (loopStep cfg host s : List (Event α) × LoopState) =
        ([], ⟨s.timeOfLastYield, s.nowCalls + 1, s.hiddenReads + 1⟩) := by
      rw [loopStep_eq, if_neg htrip]
    cases hf : f item <;> simp [runLoop, hf, hstep]

/-- C5 counterexample: with the default configuration, a visible host and the
clock reading k at its k-th call, the single decision point of a one-element
run reads the time 1 but does not trip, and timeOfLastYield afterwards still
holds the initial reading 0: the state is not updated at a decision point
whose decision does not trip, refuting the claim that it is updated after
every per-element decision point whether or not a suspension occurred. -/
theorem tly_not_updated_without_trip :
    (runLoop defaultConfig hostTick fOkNat [0] (initState hostTick)).2.1.timeOfLastYield =
      hostTick.now 0 ∧
    hostTick.now 0 ≠ hostTick.now 1 := by
  constructor
  · norm_num [runLoop, loopStep_eq, performYield, initState, hostTick, defaultConfig,
      BATCH_DURATION, fOkNat]
  · norm_num [hostTick]

/-- C5 as amended: timeOfLastYield is initialized to the first clock reading
at invocation start; at a decision point it is set to that decision's fresh
clock reading exactly when the decision trips and is left unchanged
otherwise; it is refreshed to a fresh reading after every actual suspension;
and under a monotone clock it is monotonically non-decreasing over the run. -/
theorem tly_lifecycle {α ε : Type} (cfg : Config) (host : Host) :
    (initState host).timeOfLastYield = host.now 0 ∧
    (∀ s : LoopState,
      (shouldYield cfg host s).2.timeOfLastYield =
        if host.now s.nowCalls - s.timeOfLastYield >
            (if host.hidden s.hiddenReads then cfg.hiddenThreshold else 1000 / cfg.fps) then
          host.now s.nowCalls
        else s.timeOfLastYield) ∧
    (∀ s : LoopState,
      (performYield host s : List (Event α) × LoopState).2.timeOfLastYield =
        host.now s.nowCalls) ∧
    (∀ (f : α → Except ε Unit) (items : List α) (s : LoopState),
      (∀ i j : Nat, i ≤ j → host.now i ≤ host.now j) →
      s.timeOfLastYield ≤ host.now s.nowCalls →
      s.timeOfLastYield ≤ (runLoop cfg host f items s).2.1.timeOfLastYield) := by
  have hb : (1000 : ℚ) / cfg.fps = BATCH_DURATION cfg := rfl
  refine ⟨rfl, ?_, ?_, ?_⟩
  · intro s
    rw [hb, shouldYield_eq]
    by_cases h : host.now s.nowCalls - s.timeOfLastYield >
        (if host.hidden s.hiddenReads then cfg.hiddenThreshold else BATCH_DURATION cfg) <;>
      simp [h]
  · intro s
    exact congrArg LoopState.timeOfLastYield (performYield_snd host s)
  · intro f items s hmono h
    exact (runLoop_tly_mono cfg host f hmono items s h).1

theorem tly_lifecycle_witness :
    (initState hostW).timeOfLastYield = hostW.now 0 ∧
    (initState hostW).timeOfLastYield ≤
      (runLoop defaultConfig hostW fOkNat [1, 2] (initState hostW)).2.1.timeOfLastYield := by
  have h := tly_lifecycle (α := Nat) (ε := Unit) defaultConfig hostW
  exact ⟨h.1, h.2.2.2 fOkNat [1, 2] (initState hostW) (fun i j _ => le_refl 0) (le_refl 0)⟩

/-- C6 counterexample: with the host hidden throughout, hiddenThreshold = 0
and a frozen clock, a one-element run performs no suspension at all — the
elapsed time 0 is not strictly greater than the threshold 0 — so it is false
that every element triggers the hidden-suspension path whenever the host is
hidden and the hidden threshold is 0. -/
theorem hidden_frozen_no_deferred :
    (yieldyForLoopRun cfgHidden0 hostHiddenFrozen fOkNat [0]).1 = [Event.processCall 0] ∧
    (yieldyForLoopRun cfgHidden0 hostHiddenFrozen fOkNat [0]).1.countP isDeferredCall = 0 := by
  have ht : (yieldyForLoopRun cfgHidden0 hostHiddenFrozen fOkNat [0]).1 =
      [Event.processCall 0] := by
    norm_num [yieldyForLoopRun, runLoop, loopStep_eq, performYield, initState,
      hostHiddenFrozen, cfgHidden0, BATCH_DURATION, fOkNat]
  exact ⟨ht, by rw [ht]; rfl⟩

/-- C6 as amended: with the host reported hidden throughout, a hidden
threshold of 0, a clock that strictly advances between successive readings
and a non-throwing callback, every element triggers the hidden-suspension
path, the deferred-execution primitive being invoked exactly once per
element; and with the host visible, a frozen clock and a nonnegative batch
duration, zero suspensions occur regardless of the number of elements. -/
theorem yield_frequency_by_visibility {α ε : Type} :
    (∀ (cfg : Config) (host : Host) (f : α → Except ε Unit) (items : List α),
      (∀ i j : Nat, i < j → host.now i < host.now j) →
      (∀ k, host.hidden k = true) →
      cfg.hiddenThreshold = 0 →
      (∀ a, f a = Except.ok ()) →
      (yieldyForLoopRun cfg host f items).1.countP isDeferredCall = items.length ∧
      processedItems (yieldyForLoopRun cfg host f items).1 = items) ∧
    (∀ (cfg : Config) (host : Host) (f : α → Except ε Unit) (items : List α),
      (∀ k, host.now k = host.now 0) →
      (∀ k, host.hidden k = false) →
      0 ≤ 1000 / cfg.fps →
      ∀ e ∈ (yieldyForLoopRun cfg host f items).1, ∃ b, e = Event.processCall b) := by
  constructor
  · intro cfg host f items hstrict hhid hthr hok
    exact runLoop_hidden_every cfg host f hstrict hhid hthr hok items (initState host) 0
      Nat.zero_lt_one rfl
  · intro cfg host f items hfroz hvis hb
    exact runLoop_frozen_visible cfg host f hfroz hvis hb items (initState host) rfl

theorem yield_frequency_by_visibility_witness :
    (yieldyForLoopRun cfgHidden0 hostHiddenTick fOkNat [5]).1.countP isDeferredCall = 1 ∧
    processedItems (yieldyForLoopRun cfgHidden0 hostHiddenTick fOkNat [5]).1 = [5] :=
  (yield_frequency_by_visibility (α := Nat) (ε := Unit)).1 cfgHidden0 hostHiddenTick
    fOkNat [5] (fun i j h => by simp only [hostHiddenTick]; exact_mod_cast h)
    (fun _ => rfl) rfl (fun _ => rfl)

/-- C7: two runs on the same sequence and callback under any two injected
clock and visibility behaviours produce identical callback-invocation
sequences — the same elements, each exactly once, in the same order — and the
same outcome; suspension timing never alters which elements are processed or
their order. -/
theorem callback_sequence_host_independent (cfg : Config) (host1 host2 : Host)
    (f : α → Except ε Unit) (items : List α) :
    processedItems (yieldyForLoopRun cfg host1 f items).1 =
      processedItems (yieldyForLoopRun cfg host2 f items).1 ∧
    (yieldyForLoopRun cfg host1 f items).2.2 = (yieldyForLoopRun cfg host2 f items).2.2 := by
  have h1 := runLoop_characterization cfg host1 f items (initState host1)
  have h2 := runLoop_characterization cfg host2 f items (initState host2)
  exact ⟨h1.1.trans h2.1.symm, h1.2.trans h2.2.symm⟩

/-- C8: when the protocol's own visibility reading reports visible, the
suspension registers the fixed 100 ms timer and the next-paint callback
(awaiting their race), refreshes timeOfLastYield to a fresh clock reading,
and then emits the cooperative micro-yield exactly once when the host exposes
it; when the host does not expose it, no such event ever occurs in a run and
a run with a non-throwing callback still resolves. -/
theorem visible_suspension_protocol {α β ε : Type} (host : Host) (s : LoopState)
    (hvis : host.hidden s.hiddenReads = false) :
    (performYield host s : List (Event α) × LoopState) =
      ([Event.setTimeoutCall 100, Event.rafCall] ++
        (if host.hasSchedulerYield then [Event.schedulerYieldCall] else []),
       ⟨host.now s.nowCalls, s.nowCalls + 1, s.hiddenReads + 1⟩) ∧
    (host.hasSchedulerYield = false →
      ∀ (cfg : Config) (f : β → Except ε Unit) (items : List β),
        Event.schedulerYieldCall ∉ (yieldyForLoopRun cfg host f items).1 ∧
        ((∀ a, f a = Except.ok ()) → (yieldyForLoopRun cfg host f items).2.2 = none)) := by
  constructor
  · unfold performYield
    rw [hvis]
    simp
  · intro hns cfg f items
    refine ⟨schedulerYieldCall_not_mem cfg host f hns items (initState host), fun hok => ?_⟩
    exact ((runLoop_characterization cfg host f items (initState host)).2).trans
      (resultOf_of_ok f hok items)

theorem visible_suspension_protocol_witness :
    (performYield hostW (initState hostW) : List (Event Nat) × LoopState).1 =
      [Event.setTimeoutCall 100, Event.rafCall] ∧
    Event.schedulerYieldCall ∉ (yieldyForLoopRun defaultConfig hostW fOkNat [1]).1 := by
  have h := visible_suspension_protocol (α := Nat) (β := Nat) (ε := Unit) hostW
    (initState hostW) rfl
  constructor
  · rw [h.1]
    simp [hostW]
  · exact (h.2 rfl defaultConfig fOkNat [1]).1

/-- C9: document.hidden is re-read inside the suspension branch independently
of the reading that chose the threshold.  With hostFlip, whose first hidden
reading is true and second is false, and fps = 1, the elapsed 700 ms exceeds
the hidden threshold 500 but not the visible batch duration 1000 — so the
decision tripped using hiddenThreshold — yet the visible-path race (the
setTimeout 100 and requestAnimationFrame registrations) is what executes. -/
theorem visibility_reread_at_suspension :
    (yieldyForLoopRun cfgFps1 hostFlip fOkNat [0]).1 =
      [Event.setTimeoutCall 100, Event.rafCall, Event.processCall 0] ∧
    hostFlip.hidden 0 = true ∧ hostFlip.hidden 1 = false ∧
    ¬ hostFlip.now 1 - hostFlip.now 0 > BATCH_DURATION cfgFps1 ∧
    hostFlip.now 1 - hostFlip.now 0 > cfgFps1.hiddenThreshold := by
  refine ⟨?_, rfl, rfl, ?_, ?_⟩
  · norm_num [yieldyForLoopRun, runLoop, loopStep_eq, performYield, initState, hostFlip,
      cfgFps1, BATCH_DURATION, fOkNat]
  · norm_num [hostFlip, cfgFps1, BATCH_DURATION]
  · norm_num [hostFlip, cfgFps1]

/-- C10: every value whose Symbol.iterator property is a function passes the
items validation while null and undefined fail it; a string is accepted and
the callback is invoked once per character in order, each wrapped as a
one-character string, and the run resolves; runs on null or undefined reject
with the iterability TypeError. -/
theorem iterable_validation_semantics {ε : Type} :
    (∀ v : JSValue, typeof (symbolIteratorProp v) = "function" → isIterable v = true) ∧
    isIterable JSValue.nullV = false ∧
    isIterable JSValue.undefinedV = false ∧
    (∀ (cfg : Config) (host : Host) (fB : JSValue → Except ε Unit) (s : String),
      (∀ v, fB v = Except.ok ()) →
      (yieldyForLoop cfg host (JSValue.strV s) (JSValue.funcV 0) fB).2 = JSOutcome.resolved ∧
      processedItems (yieldyForLoop cfg host (JSValue.strV s) (JSValue.funcV 0) fB).1 =
        s.data.map (fun c => JSValue.strV (String.singleton c))) ∧
    (∀ (cfg : Config) (host : Host) (fB : JSValue → Except ε Unit),
      (yieldyForLoop cfg host JSValue.nullV (JSValue.funcV 0) fB).2 =
        JSOutcome.typeError "items must be iterable" ∧
      (yieldyForLoop cfg host JSValue.undefinedV (JSValue.funcV 0) fB).2 =
        JSOutcome.typeError "items must be iterable") := by
  refine ⟨?_, rfl, rfl, ?_, fun cfg host fB => ⟨rfl, rfl⟩⟩
  · intro v hv
    cases v with
    | nullV => simp only [symbolIteratorProp, typeof] at hv; exact absurd hv (by decide)
    | undefinedV => simp only [symbolIteratorProp, typeof] at hv; exact absurd hv (by decide)
    | boolV b => simp only [symbolIteratorProp, typeof] at hv; exact absurd hv (by decide)
    | numV n => simp only [symbolIteratorProp, typeof] at hv; exact absurd hv (by decide)
    | strV s => rfl
    | funcV id => simp only [symbolIteratorProp, typeof] at hv; exact absurd hv (by decide)
    | arrV xs => rfl
    | objV o =>
      cases o with
      | none => simp only [symbolIteratorProp, typeof] at hv; exact absurd hv (by decide)
      | some xs => rfl
  · intro cfg host fB s hok
    have hchar := runLoop_characterization cfg host fB (jsElements (JSValue.strV s))
      (initState host)
    have h2 : (yieldyForLoopRun cfg host fB (jsElements (JSValue.strV s))).2.2 = none :=
      hchar.2.trans (resultOf_of_ok fB hok _)
    constructor
    · simp [yieldyForLoop, isIterable, isNullish, typeof, symbolIteratorProp, isCallable, h2]
    · have h3 := hchar.1.trans (callsOf_of_ok fB hok _)
      simpa [yieldyForLoop, isIterable, isNullish, typeof, symbolIteratorProp, isCallable,
        jsElements] using h3

theorem iterable_validation_semantics_witness :
    isIterable (JSValue.objV (some [])) = true ∧
    (yieldyForLoop defaultConfig hostW (JSValue.strV "ab") (JSValue.funcV 0) fOkJS).2 =
      JSOutcome.resolved ∧
    processedItems
        (yieldyForLoop defaultConfig hostW (JSValue.strV "ab") (JSValue.funcV 0) fOkJS).1 =
      ("ab".data.map (fun c => JSValue.strV (String.singleton c))) := by
  have h := iterable_validation_semantics (ε := Unit)
  have hs := h.2.2.2.1 defaultConfig hostW fOkJS "ab" (fun _ => rfl)
  exact ⟨h.1 (JSValue.objV (some [])) rfl, hs.1, hs.2⟩

end YieldyFor
